import Mathlib

/-!
Shallow embedding of `src/main.py`, a Steam review crawler, together with
theorems checking its specification.

The embedding mirrors the Python source:

* `uuid5` — `uuid.uuid5(namespace, name)` from the Python standard library
  (RFC 4122 version-5 UUIDs via SHA-1), used by `__process_data` as the
  identity generator for record ids and pseudonymous authors.
* `formatDate` / `parseDate` — `time.strftime("%Y-%m-%d", time.localtime ts)`
  and `time.mktime(time.strptime(s, "%Y-%m-%d"))`; the local timezone is
  modelled as UTC (a fixed-offset choice; no theorem below depends on the
  offset).
* `makeRequest` — `ReviewCrawler.__make_request` with the transport
  (`requests.get`) abstracted as a function from attempt index to an optional
  response (`none` models a raised transport exception).
* `followCursorGo` — the loop of `ReviewCrawler.follow_cursor` with the
  default `cursor_key`/`data_key`/`cursor_injection` strategies that the
  Steam adapter uses; the post-retry response to the n-th request is
  abstracted as `server endpoint n params`.
* `filterReviews`, `processData`, `sortReviews`, `SteamReviewCrawler.init` —
  `ReviewCrawler.filter_reviews`, `SteamReviewCrawler.__process_data`,
  `SteamReviewCrawler.sort_reviews` and `SteamReviewCrawler.__init__`.

Machine integers do not occur in the Python source (Python ints are
unbounded); SHA-1's 32-bit words are `Nat` reduced modulo `2 ^ 32`.
-/

/-! ## SHA-1 and version-5 UUIDs (the identity generator)

`uuid.uuid5(uuid.NAMESPACE_DNS, name)` hashes the namespace bytes followed by
the UTF-8 encoding of `name` with SHA-1, keeps the first 16 bytes, forces the
version nibble to 5 and the variant bits to `10`, and prints the result as
lowercase hex in 8-4-4-4-12 format. -/

/-- UTF-8 encoding of a single Unicode code point, as byte values. -/
def utf8EncodeChar (c : Nat) : List Nat :=
  if c < 128 then [c]
  else if c < 2048 then [192 + c / 64, 128 + c % 64]
  else if c < 65536 then [224 + c / 4096, 128 + c / 64 % 64, 128 + c % 64]
  else [240 + c / 262144, 128 + c / 4096 % 64, 128 + c / 64 % 64, 128 + c % 64]

/-- UTF-8 encoding of a string (Python's `str.encode("utf-8")`). -/
def utf8Encode (s : String) : List Nat :=
  s.data.flatMap (fun c => utf8EncodeChar c.toNat)

/-- Left rotation of a 32-bit word represented as a `Nat` below `2 ^ 32`. -/
def rotl32 (n x : Nat) : Nat :=
  ((x <<< n) % 4294967296) ||| (x >>> (32 - n))

/-- SHA-1 message padding: append `0x80`, zero bytes up to 56 mod 64, then the
bit length as 8 big-endian bytes. -/
def sha1Pad (msg : List Nat) : List Nat :=
  let bitLen := msg.length * 8
  let zeros := (119 - msg.length % 64) % 64
  msg ++ [128] ++ List.replicate zeros 0 ++
    (List.range 8).map (fun i => bitLen >>> ((7 - i) * 8) % 256)

/-- The big-endian 32-bit word starting at byte `4 * j` of a block. -/
def wordOf (block : List Nat) (j : Nat) : Nat :=
  block.getD (4 * j) 0 * 16777216 + block.getD (4 * j + 1) 0 * 65536 +
    block.getD (4 * j + 2) 0 * 256 + block.getD (4 * j + 3) 0

/-- Extend the 16-word schedule; each step pushes
`rotl1 (w[i-3] xor w[i-8] xor w[i-14] xor w[i-16])`. -/
def sha1Extend : Nat → Array Nat → Array Nat
  | 0, w => w
  | n + 1, w =>
    let i := w.size
    sha1Extend n (w.push (rotl32 1
      (w.getD (i - 3) 0 ^^^ w.getD (i - 8) 0 ^^^ w.getD (i - 14) 0 ^^^ w.getD (i - 16) 0)))

/-- The SHA-1 round function. -/
def sha1F (i b c d : Nat) : Nat :=
  if i < 20 then (b &&& c) ||| ((b ^^^ 4294967295) &&& d)
  else if i < 40 then b ^^^ c ^^^ d
  else if i < 60 then (b &&& c) ||| (b &&& d) ||| (c &&& d)
  else b ^^^ c ^^^ d

/-- The SHA-1 round constants. -/
def sha1K (i : Nat) : Nat :=
  if i < 20 then 1518500249
  else if i < 40 then 1859775393
  else if i < 60 then 2400959708
  else 3395469782

/-- One SHA-1 round on the five-word state. -/
def sha1Step (w : Array Nat) (st : Nat × Nat × Nat × Nat × Nat) (i : Nat) :
    Nat × Nat × Nat × Nat × Nat :=
  let (a, b, c, d, e) := st
  let temp := (rotl32 5 a + sha1F i b c d + e + sha1K i + w.getD i 0) % 4294967296
  (temp, a, rotl32 30 b, c, d)

/-- Compress one 64-byte block into the running hash state. -/
def sha1Compress (h : Nat × Nat × Nat × Nat × Nat) (block : List Nat) :
    Nat × Nat × Nat × Nat × Nat :=
  let w := sha1Extend 64 (Array.mk ((List.range 16).map (wordOf block)))
  let (a, b, c, d, e) := (List.range 80).foldl (sha1Step w) h
  ((h.1 + a) % 4294967296, (h.2.1 + b) % 4294967296, (h.2.2.1 + c) % 4294967296,
    (h.2.2.2.1 + d) % 4294967296, (h.2.2.2.2 + e) % 4294967296)

/-- Compress `n` consecutive 64-byte blocks. -/
def sha1Blocks : Nat → (Nat × Nat × Nat × Nat × Nat) → List Nat → Nat × Nat × Nat × Nat × Nat
  | 0, h, _ => h
  | n + 1, h, msg => sha1Blocks n (sha1Compress h (msg.take 64)) (msg.drop 64)

/-- The four big-endian bytes of a 32-bit word. -/
def wordBytes (x : Nat) : List Nat :=
  [x / 16777216 % 256, x / 65536 % 256, x / 256 % 256, x % 256]

/-- SHA-1 digest (20 bytes) of a byte sequence. -/
def sha1 (msg : List Nat) : List Nat :=
  let padded := sha1Pad msg
  let (a, b, c, d, e) :=
    sha1Blocks (padded.length / 64)
      (1732584193, 4023233417, 2562383102, 271733878, 3285377520) padded
  wordBytes a ++ wordBytes b ++ wordBytes c ++ wordBytes d ++ wordBytes e

/-- Lowercase hex digit. -/
def hexDigitChar (n : Nat) : Char :=
  if n < 10 then Char.ofNat (48 + n) else Char.ofNat (87 + n)

/-- Two lowercase hex digits of a byte. -/
def byteHex (b : Nat) : String :=
  String.mk [hexDigitChar (b / 16 % 16), hexDigitChar (b % 16)]

/-- Lowercase hex of a byte sequence. -/
def bytesHex (bs : List Nat) : String :=
  String.join (bs.map byteHex)

/-- The 16 bytes of `uuid.NAMESPACE_DNS`, `6ba7b810-9dad-11d1-80b4-00c04fd430c8`. -/
def dnsNamespaceBytes : List Nat :=
  [107, 167, 184, 16, 157, 173, 17, 209, 128, 180, 0, 192, 79, 212, 48, 200]

/-- `str(uuid.uuid5(namespace, name))`: SHA-1 of namespace bytes plus UTF-8
name, truncated to 16 bytes, version nibble set to 5, variant bits set to
`10`, rendered as lowercase 8-4-4-4-12 hex. -/
def uuid5 (nsBytes : List Nat) (name : String) : String :=
  let digest := sha1 (nsBytes ++ utf8Encode name)
  let b := digest.take 16
  let b6 := b.getD 6 0 % 16 + 80
  let b8 := b.getD 8 0 % 64 + 128
  bytesHex (b.take 4) ++ "-" ++ bytesHex ((b.drop 4).take 2) ++ "-" ++
    bytesHex [b6, b.getD 7 0] ++ "-" ++ bytesHex [b8, b.getD 9 0] ++ "-" ++
    bytesHex (b.drop 10)

/-! ## Calendar conversions

`time.localtime`/`time.strftime("%Y-%m-%d", ...)` and
`time.strptime(s, "%Y-%m-%d")`/`time.mktime` on whole-day boundaries, with the
local timezone modelled as UTC. The civil-calendar arithmetic follows the
standard days-from-civil / civil-from-days algorithms; `Int.ediv` (floor
division, since the operands can be negative) keeps them total. -/

/-- Proleptic Gregorian date (year, month, day) of a day count from 1970-01-01. -/
def civilFromDays (z0 : Int) : Int × Int × Int :=
  let z := z0 + 719468
  let era := z.ediv 146097
  let doe := z - era * 146097
  let yoe := (doe - doe.ediv 1460 + doe.ediv 36524 - doe.ediv 146096).ediv 365
  let y := yoe + era * 400
  let doy := doe - (365 * yoe + yoe.ediv 4 - yoe.ediv 100)
  let mp := (5 * doy + 2).ediv 153
  let d := doy - (153 * mp + 2).ediv 5 + 1
  let m := mp + (if mp < 10 then 3 else -9)
  (y + (if m ≤ 2 then 1 else 0), m, d)

/-- Day count from 1970-01-01 of a proleptic Gregorian date. -/
def daysFromCivil (y m d : Nat) : Int :=
  let yi : Int := if m ≤ 2 then (y : Int) - 1 else (y : Int)
  let era : Int := yi.ediv 400
  let yoe : Int := yi - era * 400
  let mp : Int := ((m : Int) + 9).emod 12
  let doy : Int := (153 * mp + 2).ediv 5 + (d : Int) - 1
  let doe : Int := yoe * 365 + yoe.ediv 4 - yoe.ediv 100 + doy
  era * 146097 + doe - 719468

/-- Zero-padded two-digit decimal (strftime `%m` / `%d`). -/
def pad2 (n : Nat) : String :=
  if n < 10 then "0" ++ toString n else toString n

/-- Zero-padded four-digit decimal (strftime `%Y`). -/
def pad4 (n : Nat) : String :=
  if n < 10 then "000" ++ toString n
  else if n < 100 then "00" ++ toString n
  else if n < 1000 then "0" ++ toString n
  else toString n

/-- `time.strftime("%Y-%m-%d", time.localtime ts)` with the timezone fixed at
UTC: the `YYYY-MM-DD` rendering of a Unix timestamp. -/
def formatDate (ts : Int) : String :=
  let p := civilFromDays (ts.ediv 86400)
  pad4 p.1.toNat ++ "-" ++ pad2 p.2.1.toNat ++ "-" ++ pad2 p.2.2.toNat

/-- `time.mktime(time.strptime(s, "%Y-%m-%d"))` with the timezone fixed at
UTC: the Unix timestamp of midnight on a `YYYY-MM-DD` date string. The
malformed-string default `0` stands in for `strptime` raising; every string
this development applies it to comes from `formatDate`. -/
def parseDate (s : String) : Int :=
  match (s.take 4).toNat?, ((s.drop 5).take 2).toNat?, ((s.drop 8).take 2).toNat? with
  | some y, some m, some d => 86400 * daysFromCivil y m d
  | _, _, _ => 0

/-! ## Data model -/

/-- The `author` object inside a raw Steam review, restricted to the fields
`__process_data` reads. `steamid` is the string form of the Steam user id (the
source applies `str(...)`, the identity on the string the API returns);
`playtime_at_review` is the value the source passes through `int(...)`. -/
structure RawAuthor where
  steamid : String
  playtime_at_review : Int
deriving DecidableEq, Repr

/-- A raw review record as returned by the Steam endpoint, restricted to the
fields the source reads. `recommendationid` is the string form of the
record's natural key (the source applies `str(...)`, the identity here). -/
structure RawRecord where
  recommendationid : String
  author : RawAuthor
  timestamp_updated : Int
  review : String
  comment_count : Int
  votes_up : Int
  votes_funny : Int
  voted_up : Bool
deriving DecidableEq, Repr

/-- The canonical output record built by `SteamReviewCrawler.__process_data`. -/
structure CanonicalReview where
  id : String
  author : String
  date : String
  hours : Int
  content : String
  comments : Int
  source : String
  helpful : Int
  funny : Int
  recommended : Bool
  franchise : String
  gameName : String
deriving DecidableEq, Repr

/-! ## Retrying request executor (`ReviewCrawler.__make_request`) -/

/-- `ReviewCrawler.NUMBER_OF_RETRIES`. -/
def NUMBER_OF_RETRIES : Nat := 5

/-- `ReviewCrawler.RETRY_DELAY`, in seconds. -/
def RETRY_DELAY : Nat := 1

/-- One page of parsed response JSON, restricted to what the default
extraction strategies read: `raw_data["reviews"]` (assumed present, as in the
source — a missing `reviews` key is an uncaught error there) and
`raw_data["cursor"]`, whose absence the source catches (`none` here). -/
structure PageResp where
  reviews : List RawRecord
  cursor : Option String
deriving DecidableEq, Repr

/-- A `requests` response: a status code plus the parsed body that `.json()`
returns. The source never inspects `statusCode`, so application-level HTTP
errors flow through unexamined. -/
structure HTTPResponse where
  statusCode : Nat
  body : PageResp
deriving DecidableEq, Repr

/-- The observable outcome of `__make_request`: the returned response or the
raised `ConnectionError` message, the number of `requests.get` attempts made,
and the total seconds slept between attempts. -/
structure RequestResult where
  outcome : Except String HTTPResponse
  attempts : Nat
  sleptSeconds : Nat
deriving Repr

/-- The `ConnectionError` message raised after exhausting retries, naming the
endpoint and both payloads (Python f-string interpolation of their reprs). -/
def connectionErrorMsg (endpoint jsonRepr urlRepr : String) : String :=
  "Something went wrong connecting to " ++ endpoint ++ " with JSON input " ++
    jsonRepr ++ " and URL encoded input " ++ urlRepr

/-- The retry loop of `__make_request`: `fuel` attempts remain and `n`
attempts have already failed (each failed attempt slept `RETRY_DELAY`
seconds). `transport i = none` models `requests.get` raising on the `i`-th
attempt; `some r` models it returning response `r` (of any status). -/
def makeRequestGo (transport : Nat → Option HTTPResponse)
    (endpoint jsonRepr urlRepr : String) : Nat → Nat → RequestResult
  | 0, n => ⟨.error (connectionErrorMsg endpoint jsonRepr urlRepr), n, n * RETRY_DELAY⟩
  | fuel + 1, n =>
    match transport n with
    | some r => ⟨.ok r, n + 1, n * RETRY_DELAY⟩
    | none => makeRequestGo transport endpoint jsonRepr urlRepr fuel (n + 1)

/-- `ReviewCrawler.__make_request`: up to `NUMBER_OF_RETRIES` transport
attempts with a fixed `RETRY_DELAY` sleep after each failure, then a
`ConnectionError`. The payload dict reprs only feed the error message. -/
def makeRequest (transport : Nat → Option HTTPResponse)
    (endpoint jsonRepr urlRepr : String) : RequestResult :=
  makeRequestGo transport endpoint jsonRepr urlRepr NUMBER_OF_RETRIES 0

/-! ## Cursor pagination engine (`ReviewCrawler.follow_cursor`) -/

/-- `dict.update {k: v}` on an association list: replace the value at an
existing key or append the pair. -/
def dictUpdate : List (String × String) → String → String → List (String × String)
  | [], k, v => [(k, v)]
  | (k', v') :: rest, k, v =>
    if k' = k then (k, v) :: rest else (k', v') :: dictUpdate rest k v

/-- The guarded default cursor injection of `follow_cursor`: when the held
cursor is truthy (not `None`, not the empty string), merge it into the URL
parameters (`url_encoded.update({"cursor": cursor})`); otherwise leave them
unchanged. -/
def injectCursor (params : List (String × String)) : Option String → List (String × String)
  | none => params
  | some c => if c = "" then params else dictUpdate params "cursor" c

/-- `(not completion_condition(self)) if completion_condition else True`,
negated: whether the loop should stop before issuing another request. The
predicate sees the accumulated records (the only crawler state the source's
intended predicate inspects). -/
def completionFires : Option (List RawRecord → Bool) → List RawRecord → Bool
  | none, _ => false
  | some p, data => p data

/-- The loop of `follow_cursor` with the default extraction strategies:
`n` requests already issued, `params` the (mutated-in-place) URL parameters,
`data` the accumulator, `cursor` the held cursor. `server endpoint n params`
is the parsed body of the (post-retry) response to the `n`-th request. Each
iteration injects a truthy cursor into the parameters, requests a page,
appends its records, then extracts the new cursor: absent — stop; equal to
the held cursor — stop; otherwise adopt it and loop. Returns the accumulator
and the number of requests issued; `none` only when `fuel` runs out (the
Python loop is unbounded). -/
def followCursorGo (endpoint : String)
    (server : String → Nat → List (String × String) → PageResp)
    (completion : Option (List RawRecord → Bool)) :
    Nat → Nat → List (String × String) → List RawRecord → Option String →
    Option (List RawRecord × Nat)
  | 0, _, _, _, _ => none
  | fuel + 1, n, params, data, cursor =>
    if completionFires completion data then some (data, n)
    else
      let params' := injectCursor params cursor
      let resp := server endpoint n params'
      let data' := data ++ resp.reviews
      match resp.cursor with
      | none => some (data', n + 1)
      | some c =>
        if some c = cursor then some (data', n + 1)
        else followCursorGo endpoint server completion fuel (n + 1) params' data' (some c)

/-- `ReviewCrawler.follow_cursor` with the default `cursor_key`, `data_key`
and `cursor_injection` strategies (the ones the Steam adapter uses). -/
def followCursor (endpoint : String)
    (server : String → Nat → List (String × String) → PageResp)
    (params : List (String × String)) (cursor : Option String)
    (completion : Option (List RawRecord → Bool)) (fuel : Nat) :
    Option (List RawRecord × Nat) :=
  followCursorGo endpoint server completion fuel 0 params [] cursor

/-! ## Date-window filter (`ReviewCrawler.filter_reviews`) -/

/-- `ReviewCrawler.filter_reviews`: keep the entries whose selected timestamp
lies between the two dates inclusive. -/
def filterReviews {α : Type} (date1 date2 : Int) (timestamp_key : α → Int)
    (data : List α) : List α :=
  data.filter (fun x => decide (date1 ≤ timestamp_key x) && decide (timestamp_key x ≤ date2))

/-! ## Normalization and dedup (`SteamReviewCrawler.__process_data`) -/

/-- The record id of line 101 of the source:
`str(uuid.uuid5(uuid.NAMESPACE_DNS, str(x["recommendationid"])))`. -/
def deriveId (x : RawRecord) : String :=
  uuid5 dnsNamespaceBytes x.recommendationid

/-- The pseudonymous author of line 105 of the source:
`str(uuid.uuid5(uuid.NAMESPACE_DNS, str(x["author"]["steamid"])))`. -/
def deriveAuthor (x : RawRecord) : String :=
  uuid5 dnsNamespaceBytes x.author.steamid

/-- The canonical record built for one raw record (the dict literal of
`__process_data`); `franchise` and `gameName` are the values the adapter's
accessors return. -/
def mkCanonical (franchise gameName : String) (x : RawRecord) : CanonicalReview :=
  { id := deriveId x
    author := deriveAuthor x
    date := formatDate x.timestamp_updated
    hours := x.author.playtime_at_review
    content := x.review
    comments := x.comment_count
    source := "steam"
    helpful := x.votes_up
    funny := x.votes_funny
    recommended := x.voted_up
    franchise := franchise
    gameName := gameName }

/-- The loop of `__process_data`: derive the id; if unseen, append the
canonical record and mark the id seen; then increment `review_counter`
(counting every processed raw record, duplicates included) and break when it
reaches 5000. The seen-set is a list used only through membership. -/
def processDataGo (franchise gameName : String) :
    List RawRecord → List CanonicalReview → List String → Nat → List CanonicalReview
  | [], newData, _, _ => newData
  | x :: rest, newData, ids, counter =>
    let i := deriveId x
    let newData' := if i ∈ ids then newData else newData ++ [mkCanonical franchise gameName x]
    let ids' := if i ∈ ids then ids else i :: ids
    if counter + 1 = 5000 then newData'
    else processDataGo franchise gameName rest newData' ids' (counter + 1)

/-- `SteamReviewCrawler.__process_data`. -/
def processData (franchise gameName : String) (old_data : List RawRecord) :
    List CanonicalReview :=
  processDataGo franchise gameName old_data [] [] 0

/-! ## Deterministic sorter (`SteamReviewCrawler.sort_reviews`) -/

/-- The sort order of `sort_reviews`: Python's tuple comparison on the key
`(time.mktime(time.strptime(x["date"], "%Y-%m-%d")), x["id"])` — strictly
earlier parsed date, or equal parsed date and lexicographically `≤` id. -/
def sortLE (x y : CanonicalReview) : Bool :=
  decide (parseDate x.date < parseDate y.date) ||
    (decide (parseDate x.date = parseDate y.date) && decide (x.id ≤ y.id))

/-- `SteamReviewCrawler.sort_reviews`: a stable sort (Python `list.sort`) of
the collection by `(parsed date, id)`. -/
def sortReviews (data : List CanonicalReview) : List CanonicalReview :=
  data.mergeSort sortLE

/-! ## The Steam adapter (`SteamReviewCrawler.__init__`) -/

/-- The crawler object after `__init__` returns: the `franchise` and
`gameName` captured into the name-mangled private fields behind the
read-only `franchise`/`gameName` properties, and the final `data`. -/
structure SteamReviewCrawler where
  franchise : String
  gameName : String
  data : List CanonicalReview
deriving DecidableEq, Repr

/-- The Steam reviews endpoint for an app id. -/
def steamEndpoint (appID : String) : String :=
  "https://store.steampowered.com/appreviews/" ++ appID

/-- The `url_encoded` defaults the adapter passes to `follow_cursor`. -/
def steamDefaultParams : List (String × String) :=
  [("json", "1"), ("num_per_page", "100"), ("filter", "updated")]

/-- `SteamReviewCrawler.__init__`: follow the cursor from `"*"` with no
completion condition (the source commented it out), filter by the date window
only when both bounds are truthy (`if start_date and end_date:` — nonzero),
normalize/dedup, and sort. `none` only on fuel exhaustion of the pagination
loop. -/
def SteamReviewCrawler.init (appID franchise gameName : String)
    (start_date end_date : Int)
    (server : String → Nat → List (String × String) → PageResp) (fuel : Nat) :
    Option SteamReviewCrawler :=
  (followCursor (steamEndpoint appID) server steamDefaultParams (some "*") none fuel).map
    fun res =>
      let raw :=
        if start_date ≠ 0 ∧ end_date ≠ 0 then
          filterReviews start_date end_date (fun entry => entry.timestamp_updated) res.1
        else res.1
      { franchise := franchise
        gameName := gameName
        data := sortReviews (processData franchise gameName raw) }

/-! ## Concrete fixtures used by witnesses and counterexamples -/

/-- A transport that fails on attempts 0–3 and succeeds on attempt 4. -/
def flakyTransport : Nat → Option HTTPResponse :=
  fun i => if i < 4 then none else some ⟨200, ⟨[], none⟩⟩

/-- A transport that fails on every attempt. -/
def deadTransport : Nat → Option HTTPResponse :=
  fun _ => none

/-- A raw record whose timestamp (20) the date window `[0, 10]` excludes. -/
def cxRecord : RawRecord := ⟨"1", ⟨"2", 0⟩, 20, "", 0, 0, 0, false⟩

/-- A server that answers every request with one page holding `cxRecord` and
no `cursor` key. -/
def cxServer : String → Nat → List (String × String) → PageResp :=
  fun _ _ _ => ⟨[cxRecord], none⟩

/-- A server that always returns an empty page and the cursor `"*"` — the
initial Steam cursor, so the first extraction repeats the held cursor. -/
def sameCursorServer : String → Nat → List (String × String) → PageResp :=
  fun _ _ _ => ⟨[], some "*"⟩

/-- Two raw records sharing the natural key `"77"` but differing in every
other field. -/
def dupRecordA : RawRecord := ⟨"77", ⟨"9001", 5⟩, 100, "first text", 1, 2, 3, true⟩

/-- The later duplicate of `dupRecordA`. -/
def dupRecordB : RawRecord := ⟨"77", ⟨"9002", 8⟩, 200, "second text", 4, 5, 6, false⟩

/-- A record whose recommendation id string equals `keyClashAuthor`'s author
steamid string. -/
def keyClashRecord : RawRecord := ⟨"76561198000000000", ⟨"123", 0⟩, 0, "", 0, 0, 0, false⟩

/-- A record whose author steamid string equals `keyClashRecord`'s
recommendation id string. -/
def keyClashAuthor : RawRecord := ⟨"9", ⟨"76561198000000000", 0⟩, 0, "", 0, 0, 0, false⟩

/-! ## Theorems -/

lemma makeRequestGo_ok (transport : Nat → Option HTTPResponse)
    (endpoint jsonRepr urlRepr : String) (r : HTTPResponse) :
    ∀ (k fuel n : Nat), k < fuel →
      (∀ i, n ≤ i → i < n + k → transport i = none) → transport (n + k) = some r →
      makeRequestGo transport endpoint jsonRepr urlRepr fuel n =
        ⟨.ok r, n + k + 1, (n + k) * RETRY_DELAY⟩ := by
  intro k
  induction k with
  | zero =>
    intro fuel n hk _ hs
    obtain ⟨fuel, rfl⟩ : ∃ f, fuel = f + 1 := ⟨fuel - 1, by omega⟩
    rw [Nat.add_zero] at hs
    simp [makeRequestGo, hs]
  | succ k ih =>
    intro fuel n hk hnone hs
    obtain ⟨fuel, rfl⟩ : ∃ f, fuel = f + 1 := ⟨fuel - 1, by omega⟩
    have h0 : transport n = none := hnone n le_rfl (by omega)
    have := ih fuel (n + 1) (by omega)
      (fun i h1 h2 => hnone i (by omega) (by omega))
      (by rw [show n + 1 + k = n + (k + 1) by omega]; exact hs)
    simp only [makeRequestGo, h0]
    rw [this, show n + 1 + k = n + (k + 1) by omega]

lemma makeRequestGo_fail (transport : Nat → Option HTTPResponse)
    (endpoint jsonRepr urlRepr : String) :
    ∀ (fuel n : Nat), (∀ i, n ≤ i → i < n + fuel → transport i = none) →
      makeRequestGo transport endpoint jsonRepr urlRepr fuel n =
        ⟨.error (connectionErrorMsg endpoint jsonRepr urlRepr), n + fuel,
          (n + fuel) * RETRY_DELAY⟩ := by
  intro fuel
  induction fuel with
  | zero => intro n _; simp [makeRequestGo]
  | succ fuel ih =>
    intro n hnone
    have h0 : transport n = none := hnone n le_rfl (by omega)
    have := ih (n + 1) (fun i h1 h2 => hnone i (by omega) (by omega))
    simp only [makeRequestGo, h0]
    rw [this, show n + 1 + fuel = n + (fuel + 1) by omega]

/-- C2: the retry executor returns the first successful transport response
(whatever its HTTP status — the source never inspects `statusCode`), having
made one attempt per prior transport failure with a fixed `RETRY_DELAY` sleep
after each failure; in particular a transport failing on the first 4 attempts
and succeeding on the 5th yields that response with no error. A transport
failing on all 5 attempts yields the `ConnectionError` naming the endpoint
and the payloads, after exactly 5 attempts. -/
theorem c2_retry_executor (transport : Nat → Option HTTPResponse)
    (endpoint jsonRepr urlRepr : String) (r : HTTPResponse) :
    (∀ k, k < 5 → (∀ i, i < k → transport i = none) → transport k = some r →
      makeRequest transport endpoint jsonRepr urlRepr =
        ⟨.ok r, k + 1, k * RETRY_DELAY⟩) ∧
    ((∀ i, i < 5 → transport i = none) →
      makeRequest transport endpoint jsonRepr urlRepr =
        ⟨.error (connectionErrorMsg endpoint jsonRepr urlRepr), 5, 5 * RETRY_DELAY⟩) := by
  constructor
  · intro k hk hnone hs
    have := makeRequestGo_ok transport endpoint jsonRepr urlRepr r k 5 0 hk
      (fun i _ h2 => hnone i (by omega)) (by simpa using hs)
    simpa [makeRequest, NUMBER_OF_RETRIES] using this
  · intro hnone
    have := makeRequestGo_fail transport endpoint jsonRepr urlRepr 5 0
      (fun i _ h2 => hnone i (by omega))
    simpa [makeRequest, NUMBER_OF_RETRIES] using this

/-- Witness for C2 at concrete transports. -/
theorem c2_retry_executor_witness :
    makeRequest flakyTransport "ep" "{}" "{}" = ⟨.ok ⟨200, ⟨[], none⟩⟩, 5, 4⟩ ∧
    makeRequest deadTransport "ep" "{}" "{}" =
      ⟨.error (connectionErrorMsg "ep" "{}" "{}"), 5, 5⟩ := by
  constructor
  · have h := (c2_retry_executor flakyTransport "ep" "{}" "{}" ⟨200, ⟨[], none⟩⟩).1 4
      (by decide) (fun i hi => by simp [flakyTransport, hi]) rfl
    simpa [RETRY_DELAY] using h
  · have h := (c2_retry_executor deadTransport "ep" "{}" "{}" ⟨200, ⟨[], none⟩⟩).2
      (fun i _ => rfl)
    simpa [RETRY_DELAY] using h

lemma processDataGo_cons_skip (f g : String) (x : RawRecord) (rest : List RawRecord)
    (acc : List CanonicalReview) (ids : List String) (k : Nat)
    (h : deriveId x ∈ ids) (hk : ¬ k + 1 = 5000) :
    processDataGo f g (x :: rest) acc ids k = processDataGo f g rest acc ids (k + 1) := by
  simp only [processDataGo, if_pos h, if_neg hk]

lemma processDataGo_cons_emit (f g : String) (x : RawRecord) (rest : List RawRecord)
    (acc : List CanonicalReview) (ids : List String) (k : Nat)
    (h : ¬ deriveId x ∈ ids) (hk : ¬ k + 1 = 5000) :
    processDataGo f g (x :: rest) acc ids k =
      processDataGo f g rest (acc ++ [mkCanonical f g x]) (deriveId x :: ids) (k + 1) := by
  simp only [processDataGo, if_neg h, if_neg hk]

lemma processDataGo_cons_cap_skip (f g : String) (x : RawRecord) (rest : List RawRecord)
    (acc : List CanonicalReview) (ids : List String) (k : Nat)
    (h : deriveId x ∈ ids) (hk : k + 1 = 5000) :
    processDataGo f g (x :: rest) acc ids k = acc := by
  simp only [processDataGo, if_pos h, if_pos hk]

lemma processDataGo_cons_cap_emit (f g : String) (x : RawRecord) (rest : List RawRecord)
    (acc : List CanonicalReview) (ids : List String) (k : Nat)
    (h : ¬ deriveId x ∈ ids) (hk : k + 1 = 5000) :
    processDataGo f g (x :: rest) acc ids k = acc ++ [mkCanonical f g x] := by
  simp only [processDataGo, if_neg h, if_pos hk]

lemma processDataGo_take (f g : String) :
    ∀ (l : List RawRecord) (acc : List CanonicalReview) (ids : List String) (k : Nat),
      k < 5000 →
      processDataGo f g l acc ids k = processDataGo f g (l.take (5000 - k)) acc ids k := by
  intro l
  induction l with
  | nil => intro acc ids k _; simp
  | cons x rest ih =>
    intro acc ids k hk
    rw [show 5000 - k = (5000 - (k + 1)) + 1 by omega, List.take_succ_cons]
    simp only [processDataGo]
    by_cases hcap : k + 1 = 5000
    · rw [if_pos hcap, if_pos hcap]
    · rw [if_neg hcap, if_neg hcap, ih _ _ _ (by omega)]

lemma processDataGo_skipAll (f g : String) (a : RawRecord) :
    ∀ (n : Nat) (acc : List CanonicalReview) (ids : List String) (k : Nat),
      deriveId a ∈ ids → processDataGo f g (List.replicate n a) acc ids k = acc := by
  intro n
  induction n with
  | zero => intro acc ids k _; simp [processDataGo]
  | succ n ih =>
    intro acc ids k hmem
    rw [List.replicate_succ]
    simp only [processDataGo, if_pos hmem]
    by_cases hcap : k + 1 = 5000
    · rw [if_pos hcap]
    · rw [if_neg hcap, ih _ _ _ hmem]

/-- C1 (code bug): the normalization stage never reads past the first 5000
raw records — `review_counter` counts every processed raw record, skipped
duplicates included — so the emitted total can stop far short of the cap.
With 6000 raw records all sharing one natural key the output has a single
record, not 5000 records drawn from the first 5200. -/
theorem c1_cap_counts_raw_records (f g : String) (l : List RawRecord) (a : RawRecord) :
    processData f g l = processData f g (l.take 5000) ∧
    (processData f g (List.replicate 6000 a)).length = 1 := by
  constructor
  · have := processDataGo_take f g l [] [] 0 (by omega)
    simpa [processData] using this
  · show (processDataGo f g (List.replicate 6000 a) [] [] 0).length = 1
    rw [show (6000 : Nat) = 5999 + 1 from rfl, List.replicate_succ,
      processDataGo_cons_emit f g a _ [] [] 0 (by simp) (by omega),
      processDataGo_skipAll f g a 5999 _ _ 1 (by simp)]
    simp

lemma followCursorGo_count (endpoint : String)
    (server : String → Nat → List (String × String) → PageResp) :
    ∀ (fuel n : Nat) (params : List (String × String)) (data : List RawRecord)
      (cursor : Option String) (res : List RawRecord) (m : Nat),
      followCursorGo endpoint server none fuel n params data cursor = some (res, m) →
      n < m := by
  intro fuel
  induction fuel with
  | zero => intro n _ _ _ _ _ h; simp [followCursorGo] at h
  | succ fuel ih =>
    intro n params data cursor res m h
    simp only [followCursorGo, completionFires, Bool.false_eq_true, if_false] at h
    split at h
    · simp only [Option.some.injEq, Prod.mk.injEq] at h; omega
    · next c heq =>
      by_cases he : some c = cursor
      · rw [if_pos he] at h
        simp only [Option.some.injEq, Prod.mk.injEq] at h; omega
      · rw [if_neg he] at h
        have := ih (n + 1) _ _ _ _ _ h
        omega

/-- C3: with no completion predicate (as in the Steam harvest), an iteration
of the pagination loop stops — returning the accumulator including the
current page's records, with no further request — exactly when cursor
extraction fails on the current response (`cursor` key absent) or the
extracted cursor equals the cursor held from the previous request; otherwise
it adopts the new cursor, keeps the injected parameters, and continues. -/
theorem c3_cursor_pagination (endpoint : String)
    (server : String → Nat → List (String × String) → PageResp)
    (fuel n : Nat) (params : List (String × String)) (data : List RawRecord)
    (cursor : Option String) :
    (((server endpoint n (injectCursor params cursor)).cursor = none ∨
        (server endpoint n (injectCursor params cursor)).cursor = cursor) →
      followCursorGo endpoint server none (fuel + 1) n params data cursor =
        some (data ++ (server endpoint n (injectCursor params cursor)).reviews, n + 1)) ∧
    (∀ c, (server endpoint n (injectCursor params cursor)).cursor = some c →
      some c ≠ cursor →
      followCursorGo endpoint server none (fuel + 1) n params data cursor =
        followCursorGo endpoint server none fuel (n + 1) (injectCursor params cursor)
          (data ++ (server endpoint n (injectCursor params cursor)).reviews) (some c)) ∧
    (∀ res, followCursorGo endpoint server none (fuel + 1) n params data cursor =
        some (res, n + 1) →
      (server endpoint n (injectCursor params cursor)).cursor = none ∨
        (server endpoint n (injectCursor params cursor)).cursor = cursor) := by
  refine ⟨?_, ?_, ?_⟩
  · intro h
    simp only [followCursorGo, completionFires, Bool.false_eq_true, if_false]
    split
    · rfl
    · next c heq =>
      rcases h with h | h
      · rw [heq] at h; cases h
      · rw [heq] at h
        rw [if_pos h]
  · intro c hc hne
    simp only [followCursorGo, completionFires, Bool.false_eq_true, if_false]
    split
    · next heq => rw [heq] at hc; cases hc
    · next c' heq =>
      rw [heq] at hc
      injection hc with hc
      subst hc
      rw [if_neg hne]
  · intro res h
    simp only [followCursorGo, completionFires, Bool.false_eq_true, if_false] at h
    split at h
    · next heq => exact Or.inl heq
    · next c heq =>
      by_cases he : some c = cursor
      · exact Or.inr (heq.trans he)
      · rw [if_neg he] at h
        exact absurd (followCursorGo_count endpoint server fuel (n + 1) _ _ _ _ _ h)
          (by omega)

/-- Witness for C3: a response with the cursor key absent ends pagination
after that page (Scenario B), and a response repeating the held cursor ends
it with no extra request (Scenario C). -/
theorem c3_cursor_pagination_witness :
    followCursorGo "ep" cxServer none 3 0 [] [] (some "*") = some ([cxRecord], 1) ∧
    followCursorGo "ep" sameCursorServer none 3 0 [] [] (some "*") = some ([], 1) := by
  constructor
  · have h := (c3_cursor_pagination "ep" cxServer 2 0 [] [] (some "*")).1 (Or.inl rfl)
    simpa using h
  · have h := (c3_cursor_pagination "ep" sameCursorServer 2 0 [] [] (some "*")).1 (Or.inr rfl)
    simpa using h

lemma sortLE_trans : ∀ a b c : CanonicalReview,
    sortLE a b = true → sortLE b c = true → sortLE a c = true := by
  intro a b c h1 h2
  simp only [sortLE, Bool.or_eq_true, Bool.and_eq_true, decide_eq_true_eq] at h1 h2 ⊢
  rcases h1 with h1 | ⟨h1e, h1i⟩ <;> rcases h2 with h2 | ⟨h2e, h2i⟩
  · exact Or.inl (h1.trans h2)
  · exact Or.inl (by rw [h2e] at h1; exact h1)
  · exact Or.inl (by rw [← h1e] at h2; exact h2)
  · exact Or.inr ⟨by rw [h1e, h2e], le_trans h1i h2i⟩

lemma sortLE_total : ∀ a b : CanonicalReview, sortLE a b || sortLE b a := by
  intro a b
  simp only [sortLE, Bool.or_eq_true, Bool.and_eq_true, decide_eq_true_eq]
  rcases lt_trichotomy (parseDate a.date) (parseDate b.date) with h | h | h
  · exact Or.inl (Or.inl h)
  · rcases le_total a.id b.id with hi | hi
    · exact Or.inl (Or.inr ⟨h, hi⟩)
    · exact Or.inr (Or.inr ⟨h.symm, hi⟩)
  · exact Or.inr (Or.inl h)

lemma init_cases (appID f g : String) (s e : Int)
    (server : String → Nat → List (String × String) → PageResp) (fuel : Nat)
    (c : SteamReviewCrawler)
    (h : SteamReviewCrawler.init appID f g s e server fuel = some c) :
    ∃ res, followCursor (steamEndpoint appID) server steamDefaultParams (some "*")
        none fuel = some res ∧
      c = ⟨f, g, sortReviews (processData f g
        (if s ≠ 0 ∧ e ≠ 0 then
          filterReviews s e (fun entry => entry.timestamp_updated) res.1
        else res.1))⟩ := by
  unfold SteamReviewCrawler.init at h
  cases hf : followCursor (steamEndpoint appID) server steamDefaultParams (some "*")
      none fuel with
  | none => rw [hf] at h; cases h
  | some res =>
    rw [hf] at h
    simp only [Option.map_some', Option.some.injEq] at h
    exact ⟨res, rfl, h.symm⟩

lemma processDataGo_length (f g : String) :
    ∀ (l : List RawRecord) (acc : List CanonicalReview) (ids : List String) (k : Nat),
      acc.length ≤ k → k < 5000 → (processDataGo f g l acc ids k).length ≤ 5000 := by
  intro l
  induction l with
  | nil => intro acc ids k h1 h2; simp only [processDataGo]; omega
  | cons x rest ih =>
    intro acc ids k h1 h2
    by_cases hmem : deriveId x ∈ ids
    · by_cases hcap : k + 1 = 5000
      · rw [processDataGo_cons_cap_skip f g x rest acc ids k hmem hcap]; omega
      · rw [processDataGo_cons_skip f g x rest acc ids k hmem hcap]
        exact ih acc ids (k + 1) (by omega) (by omega)
    · by_cases hcap : k + 1 = 5000
      · rw [processDataGo_cons_cap_emit f g x rest acc ids k hmem hcap]
        simp only [List.length_append, List.length_cons, List.length_nil]
        omega
      · rw [processDataGo_cons_emit f g x rest acc ids k hmem hcap]
        exact ih _ _ (k + 1) (by simp; omega) (by omega)

lemma processDataGo_pairwise (f g : String) :
    ∀ (l : List RawRecord) (acc : List CanonicalReview) (ids : List String) (k : Nat),
      (∀ r ∈ acc, r.id ∈ ids) → acc.Pairwise (fun r r' => r.id ≠ r'.id) →
      (processDataGo f g l acc ids k).Pairwise (fun r r' => r.id ≠ r'.id) := by
  intro l
  induction l with
  | nil => intro acc ids k _ hp; simpa only [processDataGo] using hp
  | cons x rest ih =>
    intro acc ids k hsub hp
    have hp' : (acc ++ [mkCanonical f g x]).Pairwise (fun r r' => r.id ≠ r'.id) →
        True := fun _ => trivial
    by_cases hmem : deriveId x ∈ ids
    · by_cases hcap : k + 1 = 5000
      · rw [processDataGo_cons_cap_skip f g x rest acc ids k hmem hcap]; exact hp
      · rw [processDataGo_cons_skip f g x rest acc ids k hmem hcap]
        exact ih acc ids (k + 1) hsub hp
    · have hnew : (acc ++ [mkCanonical f g x]).Pairwise (fun r r' => r.id ≠ r'.id) := by
        rw [List.pairwise_append]
        refine ⟨hp, List.pairwise_singleton _ _, ?_⟩
        intro a ha b hb
        rw [List.mem_singleton] at hb
        subst hb
        show a.id ≠ (mkCanonical f g x).id
        intro heq
        apply hmem
        have hid : (mkCanonical f g x).id = deriveId x := rfl
        rw [hid] at heq
        rw [← heq]
        exact hsub a ha
      by_cases hcap : k + 1 = 5000
      · rw [processDataGo_cons_cap_emit f g x rest acc ids k hmem hcap]; exact hnew
      · rw [processDataGo_cons_emit f g x rest acc ids k hmem hcap]
        refine ih _ _ (k + 1) ?_ hnew
        intro r hr
        rcases List.mem_append.mp hr with hr | hr
        · exact List.mem_cons_of_mem _ (hsub r hr)
        · rw [List.mem_singleton] at hr
          subst hr
          exact List.mem_cons_self _ _

lemma processDataGo_mem (f g : String) :
    ∀ (l : List RawRecord) (acc : List CanonicalReview) (ids : List String) (k : Nat)
      (r : CanonicalReview), r ∈ processDataGo f g l acc ids k →
      r ∈ acc ∨ ∃ x, x ∈ l ∧ r = mkCanonical f g x := by
  intro l
  induction l with
  | nil => intro acc ids k r h; exact Or.inl (by simpa only [processDataGo] using h)
  | cons x rest ih =>
    intro acc ids k r h
    by_cases hmem : deriveId x ∈ ids
    · by_cases hcap : k + 1 = 5000
      · rw [processDataGo_cons_cap_skip f g x rest acc ids k hmem hcap] at h
        exact Or.inl h
      · rw [processDataGo_cons_skip f g x rest acc ids k hmem hcap] at h
        rcases ih acc ids (k + 1) r h with h' | ⟨y, hy, hr⟩
        · exact Or.inl h'
        · exact Or.inr ⟨y, List.mem_cons_of_mem _ hy, hr⟩
    · by_cases hcap : k + 1 = 5000
      · rw [processDataGo_cons_cap_emit f g x rest acc ids k hmem hcap] at h
        rcases List.mem_append.mp h with h' | h'
        · exact Or.inl h'
        · rw [List.mem_singleton] at h'
          exact Or.inr ⟨x, List.mem_cons_self _ _, h'⟩
      · rw [processDataGo_cons_emit f g x rest acc ids k hmem hcap] at h
        rcases ih _ _ (k + 1) r h with h' | ⟨y, hy, hr⟩
        · rcases List.mem_append.mp h' with h'' | h''
          · exact Or.inl h''
          · rw [List.mem_singleton] at h''
            exact Or.inr ⟨x, List.mem_cons_self _ _, h''⟩
        · exact Or.inr ⟨y, List.mem_cons_of_mem _ hy, hr⟩

lemma sortReviews_singleton (a : CanonicalReview) : sortReviews [a] = [a] := by
  simp [sortReviews]

/-- C5: the harvest's final collection is sorted ascending by the key
`(parsed date, id)` — pairwise `sortLE` — and re-sorting it is the
identity. -/
theorem c5_sorted_idempotent (appID f g : String) (s e : Int)
    (server : String → Nat → List (String × String) → PageResp) (fuel : Nat)
    (c : SteamReviewCrawler)
    (h : SteamReviewCrawler.init appID f g s e server fuel = some c) :
    c.data.Pairwise (fun x y => sortLE x y = true) ∧ sortReviews c.data = c.data := by
  obtain ⟨res, _, rfl⟩ := init_cases appID f g s e server fuel c h
  constructor
  · exact List.sorted_mergeSort sortLE_trans sortLE_total _
  · show sortReviews (sortReviews _) = sortReviews _
    exact List.mergeSort_of_sorted (List.sorted_mergeSort sortLE_trans sortLE_total _)

/-- Witness for C5 at a concrete one-record harvest. -/
theorem c5_sorted_idempotent_witness :
    (SteamReviewCrawler.init "1" "F" "G" 1 30 cxServer 2 =
      some ⟨"F", "G", [mkCanonical "F" "G" cxRecord]⟩) ∧
    ([mkCanonical "F" "G" cxRecord] : List CanonicalReview).Pairwise
      (fun x y => sortLE x y = true) ∧
    sortReviews [mkCanonical "F" "G" cxRecord] = [mkCanonical "F" "G" cxRecord] := by
  have h1 : SteamReviewCrawler.init "1" "F" "G" 1 30 cxServer 2 =
      some ⟨"F", "G", sortReviews [mkCanonical "F" "G" cxRecord]⟩ := rfl
  have h : SteamReviewCrawler.init "1" "F" "G" 1 30 cxServer 2 =
      some ⟨"F", "G", [mkCanonical "F" "G" cxRecord]⟩ := by
    rw [h1, sortReviews_singleton]
  have h2 := c5_sorted_idempotent "1" "F" "G" 1 30 cxServer 2 _ h
  exact ⟨h, h2.1, h2.2⟩

/-- C6: the harvest's output has at most 5000 records and no two of its
records share an `id`. -/
theorem c6_cap_and_unique_ids (appID f g : String) (s e : Int)
    (server : String → Nat → List (String × String) → PageResp) (fuel : Nat)
    (c : SteamReviewCrawler)
    (h : SteamReviewCrawler.init appID f g s e server fuel = some c) :
    c.data.length ≤ 5000 ∧ c.data.Pairwise (fun r r' => r.id ≠ r'.id) := by
  obtain ⟨res, _, rfl⟩ := init_cases appID f g s e server fuel c h
  constructor
  · show (sortReviews _).length ≤ 5000
    rw [sortReviews, List.length_mergeSort]
    exact processDataGo_length f g _ [] [] 0 (by simp) (by omega)
  · show (sortReviews _).Pairwise _
    refine (List.Perm.pairwise_iff (fun hab => Ne.symm hab)
      (List.mergeSort_perm _ sortLE)).mpr ?_
    exact processDataGo_pairwise f g _ [] [] 0 (by simp) List.Pairwise.nil

/-- Witness for C6 at a concrete one-record harvest. -/
theorem c6_cap_and_unique_ids_witness :
    (SteamReviewCrawler.init "1" "F" "G" 1 30 cxServer 2 =
      some ⟨"F", "G", [mkCanonical "F" "G" cxRecord]⟩) ∧
    ([mkCanonical "F" "G" cxRecord] : List CanonicalReview).length ≤ 5000 ∧
    ([mkCanonical "F" "G" cxRecord] : List CanonicalReview).Pairwise
      (fun r r' => r.id ≠ r'.id) := by
  have h1 : SteamReviewCrawler.init "1" "F" "G" 1 30 cxServer 2 =
      some ⟨"F", "G", sortReviews [mkCanonical "F" "G" cxRecord]⟩ := rfl
  have h : SteamReviewCrawler.init "1" "F" "G" 1 30 cxServer 2 =
      some ⟨"F", "G", [mkCanonical "F" "G" cxRecord]⟩ := by
    rw [h1, sortReviews_singleton]
  have h2 := c6_cap_and_unique_ids "1" "F" "G" 1 30 cxServer 2 _ h
  exact ⟨h, h2.1, h2.2⟩

/-- C7: every record of the harvest's output carries the `franchise` and
`gameName` supplied at invocation and the fixed source `"steam"`, and the
adapter's accessors return the construction-time values. -/
theorem c7_invariant_fields (appID f g : String) (s e : Int)
    (server : String → Nat → List (String × String) → PageResp) (fuel : Nat)
    (c : SteamReviewCrawler)
    (h : SteamReviewCrawler.init appID f g s e server fuel = some c) :
    c.franchise = f ∧ c.gameName = g ∧
      ∀ r ∈ c.data, r.franchise = f ∧ r.gameName = g ∧ r.source = "steam" := by
  obtain ⟨res, _, rfl⟩ := init_cases appID f g s e server fuel c h
  refine ⟨rfl, rfl, ?_⟩
  intro r hr
  have hr' := List.mem_mergeSort.mp hr
  rcases processDataGo_mem f g _ [] [] 0 r hr' with h' | ⟨x, _, rfl⟩
  · exact absurd h' (List.not_mem_nil r)
  · exact ⟨rfl, rfl, rfl⟩

/-- Witness for C7 at a concrete one-record harvest. -/
theorem c7_invariant_fields_witness :
    (SteamReviewCrawler.init "1" "F" "G" 1 30 cxServer 2 =
      some ⟨"F", "G", [mkCanonical "F" "G" cxRecord]⟩) ∧
    (⟨"F", "G", [mkCanonical "F" "G" cxRecord]⟩ : SteamReviewCrawler).franchise = "F" ∧
    (⟨"F", "G", [mkCanonical "F" "G" cxRecord]⟩ : SteamReviewCrawler).gameName = "G" ∧
    ∀ r ∈ (⟨"F", "G", [mkCanonical "F" "G" cxRecord]⟩ : SteamReviewCrawler).data,
      r.franchise = "F" ∧ r.gameName = "G" ∧ r.source = "steam" := by
  have h1 : SteamReviewCrawler.init "1" "F" "G" 1 30 cxServer 2 =
      some ⟨"F", "G", sortReviews [mkCanonical "F" "G" cxRecord]⟩ := rfl
  have h : SteamReviewCrawler.init "1" "F" "G" 1 30 cxServer 2 =
      some ⟨"F", "G", [mkCanonical "F" "G" cxRecord]⟩ := by
    rw [h1, sortReviews_singleton]
  have h2 := c7_invariant_fields "1" "F" "G" 1 30 cxServer 2 _ h
  exact ⟨h, h2.1, h2.2.1, h2.2.2⟩

/-- C4 (amended): when both supplied bounds are truthy (nonzero), the date
window is applied to the raw records' full-precision timestamps before
normalization, and every output record is the canonical image of a raw
record whose timestamp lies within the inclusive window. -/
theorem c4_date_window_amended (appID f g : String) (s e : Int)
    (server : String → Nat → List (String × String) → PageResp) (fuel : Nat)
    (c : SteamReviewCrawler) (hs : s ≠ 0) (he : e ≠ 0)
    (h : SteamReviewCrawler.init appID f g s e server fuel = some c) :
    ∀ r ∈ c.data, ∃ x : RawRecord,
      (s ≤ x.timestamp_updated ∧ x.timestamp_updated ≤ e) ∧
      r = mkCanonical f g x := by
  obtain ⟨res, _, rfl⟩ := init_cases appID f g s e server fuel c h
  intro r hr
  rw [if_pos ⟨hs, he⟩] at hr
  have hr' := List.mem_mergeSort.mp hr
  rcases processDataGo_mem f g _ [] [] 0 r hr' with h' | ⟨x, hx, rfl⟩
  · exact absurd h' (List.not_mem_nil r)
  · simp only [filterReviews] at hx
    have hx' := List.mem_filter.mp hx
    refine ⟨x, ?_, rfl⟩
    have hb := hx'.2
    simp only [Bool.and_eq_true, decide_eq_true_eq] at hb
    exact hb

/-- Witness for C4's amended statement at a concrete harvest whose bounds
`[1, 30]` are nonzero and admit the record's timestamp 20. -/
theorem c4_date_window_witness :
    ((1 : Int) ≠ 0) ∧ ((30 : Int) ≠ 0) ∧
    ∀ r ∈ (⟨"F", "G", [mkCanonical "F" "G" cxRecord]⟩ : SteamReviewCrawler).data,
      ∃ x : RawRecord,
        ((1 : Int) ≤ x.timestamp_updated ∧ x.timestamp_updated ≤ 30) ∧
        r = mkCanonical "F" "G" x := by
  have h1 : SteamReviewCrawler.init "1" "F" "G" 1 30 cxServer 2 =
      some ⟨"F", "G", sortReviews [mkCanonical "F" "G" cxRecord]⟩ := rfl
  have h : SteamReviewCrawler.init "1" "F" "G" 1 30 cxServer 2 =
      some ⟨"F", "G", [mkCanonical "F" "G" cxRecord]⟩ := by
    rw [h1, sortReviews_singleton]
  exact ⟨by decide, by decide,
    c4_date_window_amended "1" "F" "G" 1 30 cxServer 2
      ⟨"F", "G", [mkCanonical "F" "G" cxRecord]⟩ (by decide) (by decide) h⟩

/-- C4 (counterexample): with both bounds supplied but the start bound equal
to the falsy value 0, the harvest keeps a record whose timestamp 20 lies
outside the window `[0, 10]` — the filter, which would have removed it, was
not applied. -/
theorem c4_date_window_cx :
    (SteamReviewCrawler.init "1" "F" "G" 0 10 cxServer 2).map
        (fun c => c.data.length) = some 1 ∧
    filterReviews 0 10 (fun entry => entry.timestamp_updated) [cxRecord] = [] := by
  have h1 : SteamReviewCrawler.init "1" "F" "G" 0 10 cxServer 2 =
      some ⟨"F", "G", sortReviews [mkCanonical "F" "G" cxRecord]⟩ := rfl
  constructor
  · rw [h1, sortReviews_singleton]
    rfl
  · rfl

lemma processDataGo_filter_key (f g target : String) :
    ∀ (l : List RawRecord) (acc : List CanonicalReview) (ids : List String)
      (counter : Nat),
      counter + l.length ≤ 5000 →
      (∀ r ∈ acc, r.id ∈ ids) →
      (processDataGo f g l acc ids counter).filter (fun r => r.id == target) =
        acc.filter (fun r => r.id == target) ++
          (if target ∈ ids then []
           else ((l.find? (fun x => deriveId x == target)).map (mkCanonical f g)).toList) := by
  intro l
  induction l with
  | nil =>
    intro acc ids counter _ _
    simp [processDataGo]
  | cons x rest ih =>
    intro acc ids counter hlen hacc
    have hlen' : counter + 1 + rest.length ≤ 5000 := by
      simp only [List.length_cons] at hlen; omega
    by_cases hmem : deriveId x ∈ ids
    · have hxne : ∀ ht : ¬ target ∈ ids, ¬ (deriveId x == target) = true := by
        intro ht
        simp only [beq_iff_eq]
        intro heq
        exact ht (heq ▸ hmem)
      by_cases hcap : counter + 1 = 5000
      · have hrest : rest = [] := by
          have : rest.length = 0 := by omega
          exact List.length_eq_zero.mp this
        subst hrest
        rw [processDataGo_cons_cap_skip f g x [] acc ids counter hmem hcap]
        by_cases ht : target ∈ ids
        · simp [ht]
        · have hfind0 : List.find? (fun y => deriveId y == target) [x] = none := by
            rw [@List.find?_cons_of_neg _ (fun y => deriveId y == target) x [] (hxne ht)]
            rfl
          rw [if_neg ht, hfind0]
          simp
      · rw [processDataGo_cons_skip f g x rest acc ids counter hmem hcap,
          ih acc ids (counter + 1) hlen' hacc]
        by_cases ht : target ∈ ids
        · simp [ht]
        · have hfind1 : List.find? (fun y => deriveId y == target) (x :: rest) =
              List.find? (fun y => deriveId y == target) rest :=
            @List.find?_cons_of_neg _ (fun y => deriveId y == target) x rest (hxne ht)
          rw [if_neg ht, if_neg ht, hfind1]
    · have hacc' : ∀ r ∈ acc ++ [mkCanonical f g x], r.id ∈ deriveId x :: ids := by
        intro r hr
        rcases List.mem_append.mp hr with hr | hr
        · exact List.mem_cons_of_mem _ (hacc r hr)
        · rw [List.mem_singleton] at hr
          subst hr
          exact List.mem_cons_self _ _
      by_cases htar : deriveId x = target
      · have ht : ¬ target ∈ ids := fun h => hmem (htar ▸ h)
        have hpx : ((mkCanonical f g x).id == target) = true := by
          show (deriveId x == target) = true
          simp only [beq_iff_eq]
          exact htar
        have hfind : List.find? (fun y => deriveId y == target) (x :: rest) = some x :=
          List.find?_cons_of_pos _ (by simp only [beq_iff_eq]; exact htar)
        by_cases hcap : counter + 1 = 5000
        · rw [processDataGo_cons_cap_emit f g x rest acc ids counter hmem hcap,
            List.filter_append, if_neg ht, hfind]
          simp [hpx]
        · rw [processDataGo_cons_emit f g x rest acc ids counter hmem hcap,
            ih _ _ (counter + 1) hlen' hacc', List.filter_append, if_neg ht, hfind]
          have hmemc : target ∈ deriveId x :: ids := by
            rw [← htar]
            exact List.mem_cons_self _ _
          rw [if_pos hmemc]
          simp [hpx]
      · have hpx : ¬ ((mkCanonical f g x).id == target) = true := by
          show ¬ (deriveId x == target) = true
          simp only [beq_iff_eq]
          exact htar
        have hfind : List.find? (fun y => deriveId y == target) (x :: rest) =
            List.find? (fun y => deriveId y == target) rest :=
          List.find?_cons_of_neg _ (by simp only [beq_iff_eq]; exact htar)
        have hiff : (target ∈ deriveId x :: ids) ↔ (target ∈ ids) := by
          rw [List.mem_cons]
          constructor
          · rintro (h | h)
            · exact absurd h.symm htar
            · exact h
          · exact Or.inr
        by_cases hcap : counter + 1 = 5000
        · have hrest : rest = [] := by
            have : rest.length = 0 := by omega
            exact List.length_eq_zero.mp this
          subst hrest
          rw [processDataGo_cons_cap_emit f g x [] acc ids counter hmem hcap,
            List.filter_append, hfind]
          simp [hpx]
        · rw [processDataGo_cons_emit f g x rest acc ids counter hmem hcap,
            ih _ _ (counter + 1) hlen' hacc', List.filter_append, hfind,
            if_congr hiff rfl rfl]
          simp [hpx]

/-- C8: within the stage's 5000-record working bound, normalization emits
exactly one canonical record per derived id — the canonical image of the
first raw record in input order carrying that id — and skips every later
record whose derived id was already seen: filtering the output on the id
derived from a natural key `k` yields exactly the image of `find?` for the
first matching raw record. -/
theorem c8_dedup_first_wins (f g : String) (l : List RawRecord) (k : String)
    (h : l.length ≤ 5000) :
    (processData f g l).filter (fun r => r.id == uuid5 dnsNamespaceBytes k) =
      ((l.find? (fun x => deriveId x == uuid5 dnsNamespaceBytes k)).map
        (mkCanonical f g)).toList := by
  have := processDataGo_filter_key f g (uuid5 dnsNamespaceBytes k) l [] [] 0
    (by simpa using h) (by simp)
  simpa [processData] using this

/-- Witness for C8 at Scenario A: two records with the same natural key and
different content. -/
theorem c8_dedup_first_wins_witness :
    ([dupRecordA, dupRecordB] : List RawRecord).length ≤ 5000 ∧
    (processData "F" "G" [dupRecordA, dupRecordB]).filter
        (fun r => r.id == uuid5 dnsNamespaceBytes "77") =
      (([dupRecordA, dupRecordB].find?
          (fun x => deriveId x == uuid5 dnsNamespaceBytes "77")).map
        (mkCanonical "F" "G")).toList :=
  ⟨by decide, c8_dedup_first_wins "F" "G" [dupRecordA, dupRecordB] "77" (by decide)⟩

/-- C9: when either supplied bound is the falsy value 0, the Steam harvest
skips the date-window filter entirely — the fetched records flow to
normalization unfiltered. -/
theorem c9_falsy_bounds_skip_filter (appID f g : String) (s e : Int)
    (server : String → Nat → List (String × String) → PageResp) (fuel : Nat)
    (h : s = 0 ∨ e = 0) :
    SteamReviewCrawler.init appID f g s e server fuel =
      (followCursor (steamEndpoint appID) server steamDefaultParams (some "*")
        none fuel).map
        (fun res => ⟨f, g, sortReviews (processData f g res.1)⟩) := by
  have hc : ¬ (s ≠ 0 ∧ e ≠ 0) := by
    rcases h with h | h <;> simp [h]
  unfold SteamReviewCrawler.init
  cases hf : followCursor (steamEndpoint appID) server steamDefaultParams (some "*")
      none fuel with
  | none => rfl
  | some res => simp only [Option.map_some', if_neg hc]

/-- Witness for C9: a harvest supplied with start bound 0 equals the
unfiltered pipeline. -/
theorem c9_falsy_bounds_skip_filter_witness :
    ((0 : Int) = 0 ∨ (10 : Int) = 0) ∧
    SteamReviewCrawler.init "1" "F" "G" 0 10 cxServer 2 =
      (followCursor (steamEndpoint "1") cxServer steamDefaultParams (some "*")
        none 2).map
        (fun res => ⟨"F", "G", sortReviews (processData "F" "G" res.1)⟩) :=
  ⟨Or.inl rfl, c9_falsy_bounds_skip_filter "1" "F" "G" 0 10 cxServer 2 (Or.inl rfl)⟩

/-- C10: the record id and the pseudonymous author are produced by the same
one-way derivation — `uuid5` over the DNS namespace applied to the
stringified natural key — so whenever one record's recommendation id string
equals another's author steamid string, the derived id equals the derived
author identifier. -/
theorem c10_id_author_same_derivation (f g : String) (x y : RawRecord) :
    (mkCanonical f g x).id = uuid5 dnsNamespaceBytes x.recommendationid ∧
    (mkCanonical f g y).author = uuid5 dnsNamespaceBytes y.author.steamid ∧
    (x.recommendationid = y.author.steamid →
      (mkCanonical f g x).id = (mkCanonical f g y).author) := by
  refine ⟨rfl, rfl, fun h => ?_⟩
  show uuid5 dnsNamespaceBytes x.recommendationid =
    uuid5 dnsNamespaceBytes y.author.steamid
  rw [h]

/-- Witness for C10 at records whose natural-key strings coincide. -/
theorem c10_id_author_same_derivation_witness :
    keyClashRecord.recommendationid = keyClashAuthor.author.steamid ∧
    (mkCanonical "F" "G" keyClashRecord).id =
      (mkCanonical "F" "G" keyClashAuthor).author :=
  ⟨rfl, (c10_id_author_same_derivation "F" "G" keyClashRecord keyClashAuthor).2.2 rfl⟩
